import Mathlib

/-
Verification of the streaming MMD estimation engine
(src/src/shogun/statistical_testing/MMD.cpp).

Shallow embedding conventions:
  * the double-precision accumulators (float64_t) and the single-precision
    per-block job outputs (float32_t) are modelled exactly over ℚ;
  * the external collaborators (DataManager stream, kernels, parallel job
    executor, normalization rules of the derived classes) are abstracted:
    a burst is represented by the per-block scalar job outputs it induces,
    and the virtual normalize_statistic / normalize_variance hooks are
    function parameters;
  * SG_SERROR / REQUIRE failures are modelled with an explicit error type.
-/

set_option autoImplicit false

namespace ShogunMMD

/-- Modelled from the spec: the header MMD.h declaring EStatisticType is not
under src/; the three constructors are the ones used by
create_statistic_job and listed in the spec (unbiased-full,
unbiased-incomplete, biased-full). -/
inductive EStatisticType where
  | ST_UNBIASED_FULL
  | ST_UNBIASED_INCOMPLETE
  | ST_BIASED_FULL
deriving DecidableEq

/-- Modelled from the spec: the header declaring EVarianceEstimationMethod is
not under src/; the two constructors (direct, permutation) are the ones used
by create_variance_job and listed in the spec. -/
inductive EVarianceEstimationMethod where
  | VEM_DIRECT
  | VEM_PERMUTATION
deriving DecidableEq

/-- Modelled from the spec: the header declaring ENullApproximationMethod is
not under src/; NAM_PERMUTATION is the default set by the constructor, the
others appear in commented guards of set_null_approximation_method. -/
inductive ENullApproximationMethod where
  | NAM_PERMUTATION
  | NAM_MMD1_GAUSSIAN
  | NAM_MMD2_SPECTRUM
  | NAM_MMD2_GAMMA
deriving DecidableEq

/-- Modelled from the spec: the header declaring EKernelSelectionMethod is not
under src/; the four supported constructors are the switch cases of
select_kernel, KSM_AUTO stands for any value taken by the default branch. -/
inductive EKernelSelectionMethod where
  | KSM_MEDIAN_HEURISTIC
  | KSM_MAXIMIZE_XVALIDATION
  | KSM_MAXIMIZE_MMD
  | KSM_MAXIMIZE_POWER
  | KSM_AUTO
deriving DecidableEq

/-- Fatal errors raised by the engine (REQUIRE / SG_ERROR calls in MMD.cpp).
Each constructor corresponds to one message:
  * kernelNotSet: "Kernel is not set!"
  * noKernels: "No kernels specified for kernel learning!"
  * oddBlocks n: "The number of blocks per burst (n this burst) has to be even!"
  * weightedNotAllowed: "Weighted kernel selection is not possible with ..."
  * unsupportedMethod: "Unsupported kernel selection method specified!" -/
inductive Err where
  | kernelNotSet
  | noKernels
  | oddBlocks (n : ℕ)
  | weightedNotAllowed
  | unsupportedMethod
deriving DecidableEq

/-- The online running-mean accumulator of MMD.cpp: a current mean and a term
counter that starts at 1 (statistic_term_counter, variance_term_counter,
term_counters_statistic, term_counters_Q, term_counters all start at 1). -/
structure Accum where
  mean : ℚ
  counter : ℕ
deriving DecidableEq

/-- The accumulator before any update: mean 0, counter 1. -/
def Accum.init : Accum := ⟨0, 1⟩

/-- One online update, the rule at MMD.cpp lines 226-228 (and 305-306, 318,
372-374): delta = v - mean; mean += delta / counter; counter++. -/
def Accum.update (a : Accum) (v : ℚ) : Accum :=
  ⟨a.mean + (v - a.mean) / (a.counter : ℚ), a.counter + 1⟩

/-- Feeding a whole sequence of scalars through the accumulator. -/
def Accum.feed (a : Accum) (vs : List ℚ) : Accum :=
  vs.foldl Accum.update a

/-- One burst of the statistic/variance stream: per block, the scalar computed
by the statistic job (cm.result(0)) and the scalar computed by the variance
job (cm.result(1)) on the kernel matrix of that block. -/
structure Burst where
  blocks : List (ℚ × ℚ)

/-- The local accumulation state of CMMD::Self::compute_statistic_variance
(MMD.cpp lines 197-201). -/
structure SVState where
  statistic : ℚ
  permuted_samples_statistic : ℚ
  variance : ℚ
  statistic_term_counter : ℕ
  variance_term_counter : ℕ
deriving DecidableEq

/-- Initial state: all accumulators 0, both term counters 1. -/
def svInit : SVState := ⟨0, 0, 0, 1, 1⟩

/-- Folding one statistic scalar (MMD.cpp lines 224-229). -/
def foldStat (s : SVState) (mmd : ℚ) : SVState :=
  { s with
      statistic := s.statistic + (mmd - s.statistic) / (s.statistic_term_counter : ℚ)
      statistic_term_counter := s.statistic_term_counter + 1 }

/-- Folding one variance scalar in VEM_DIRECT mode (MMD.cpp lines 233-238):
plain running mean of the direct variance job outputs. -/
def foldVarDirect (s : SVState) (v : ℚ) : SVState :=
  { s with
      variance := s.variance + (v - s.variance) / (s.variance_term_counter : ℚ)
      variance_term_counter := s.variance_term_counter + 1 }

/-- Folding one variance scalar in VEM_PERMUTATION mode (MMD.cpp lines
242-248): delta = v - permuted_samples_statistic;
permuted_samples_statistic += delta / variance_term_counter;
variance += delta * (v - permuted_samples_statistic);
variance_term_counter++.
The mean of v is updated first and the cross term reads the updated mean. -/
def foldVarPerm (s : SVState) (v : ℚ) : SVState :=
  let delta := v - s.permuted_samples_statistic
  let m := s.permuted_samples_statistic + delta / (s.variance_term_counter : ℚ)
  { s with
      permuted_samples_statistic := m
      variance := s.variance + delta * (v - m)
      variance_term_counter := s.variance_term_counter + 1 }

/-- Processing one burst of compute_statistic_variance: every statistic scalar
is folded into the statistic accumulator, then every variance scalar is folded
by the rule of the active variance-estimation method. -/
def processBurstSV (vem : EVarianceEstimationMethod) (s : SVState) (b : Burst) : SVState :=
  let s1 := (b.blocks.map Prod.fst).foldl foldStat s
  match vem with
  | .VEM_DIRECT => (b.blocks.map Prod.snd).foldl foldVarDirect s1
  | .VEM_PERMUTATION => (b.blocks.map Prod.snd).foldl foldVarPerm s1

/-- CMMD::Self::compute_statistic_variance (MMD.cpp lines 191-262).
The kernel slot km.kernel_at(0) is modelled as an Option; a missing kernel
fails with kernelNotSet before the stream is consumed.  At the end the
statistic is normalized once, and the variance is normalized only in
VEM_PERMUTATION mode. -/
def compute_statistic_variance (kernel : Option Unit)
    (vem : EVarianceEstimationMethod)
    (normalize_statistic normalize_variance : ℚ → ℚ)
    (bursts : List Burst) : Except Err (ℚ × ℚ) :=
  match kernel with
  | none => .error .kernelNotSet
  | some _ =>
      let s := bursts.foldl (processBurstSV vem) svInit
      let statistic := normalize_statistic s.statistic
      let variance :=
        match vem with
        | .VEM_PERMUTATION => normalize_variance s.variance
        | .VEM_DIRECT => s.variance
      .ok (statistic, variance)

/-- CMMD::compute_statistic (MMD.cpp lines 514-517): it returns
compute_statistic_variance().first. -/
def compute_statistic (kernel : Option Unit)
    (vem : EVarianceEstimationMethod)
    (normalize_statistic normalize_variance : ℚ → ℚ)
    (bursts : List Burst) : Except Err ℚ :=
  (compute_statistic_variance kernel vem normalize_statistic normalize_variance bursts).map
    Prod.fst

/-- One burst of the multi-kernel stream: its block count and, for each kernel
index k and block index i, the scalar mmds[k][i] the statistic job computes on
the matrix of kernel k for block i. -/
structure QBurst where
  nblocks : ℕ
  mmd : ℕ → ℕ → ℚ

/-- The accumulation state of CMMD::Self::compute_statistic_and_Q (MMD.cpp
lines 270-278): the per-kernel statistic running means with their term
counters, and the Q matrix entries with their term counters. -/
structure QState where
  statistic : ℕ → ℚ
  statCounter : ℕ → ℕ
  Q : ℕ → ℕ → ℚ
  qCounter : ℕ → ℕ → ℕ

/-- Initial state: statistic and Q filled with 0, all term counters 1. -/
def qInit : QState := ⟨fun _ => 0, fun _ => 1, fun _ _ => 0, fun _ _ => 1⟩

/-- The statistic job outputs of one burst for kernel k, in block order. -/
def blockVals (b : QBurst) (k : ℕ) : List ℚ :=
  (List.range b.nblocks).map (b.mmd k)

/-- The cross terms of one burst for the kernel pair (i, j): one product
(mmds[i][2k]-mmds[i][2k+1])*(mmds[j][2k]-mmds[j][2k+1]) per adjacent block
pair (2k, 2k+1), as in MMD.cpp line 317. -/
def qTerms (b : QBurst) (i j : ℕ) : List ℚ :=
  (List.range (b.nblocks / 2)).map (fun k =>
    (b.mmd i (2 * k) - b.mmd i (2 * k + 1)) * (b.mmd j (2 * k) - b.mmd j (2 * k + 1)))

/-- The per-kernel statistic accumulation of one burst (MMD.cpp lines
297-308): for each kernel k, the scalar of every block is folded into
statistic[k] with term_counters_statistic[k]. -/
def statLoop (K : ℕ) (b : QBurst) (s : QState) : QState :=
  (List.range K).foldl (fun st k =>
    let a := Accum.feed ⟨st.statistic k, st.statCounter k⟩ (blockVals b k)
    { st with
        statistic := Function.update st.statistic k a.mean
        statCounter := Function.update st.statCounter k a.counter }) s

/-- The update of one Q cell for one burst (MMD.cpp lines 315-320): the inner
k-loop folds every cross term into Q(i, j) with term_counters_Q(i, j), then
Q(j, i) = Q(i, j) mirrors the value. -/
def qPairUpdate (b : QBurst) (i j : ℕ) (s : QState) : QState :=
  let a := Accum.feed ⟨s.Q i j, s.qCounter i j⟩ (qTerms b i j)
  { s with
      Q := fun p q => if (p = i ∧ q = j) ∨ (p = j ∧ q = i) then a.mean else s.Q p q
      qCounter := fun p q => if p = i ∧ q = j then a.counter else s.qCounter p q }

/-- The pairs (i, j) visited by the nested loops at MMD.cpp lines 311-313:
i ranges over [0, K), j over [0, i], in that order. -/
def pairList (K : ℕ) : List (ℕ × ℕ) :=
  (List.range K).flatMap (fun i => (List.range (i + 1)).map (fun j => (i, j)))

/-- The full lower-triangle Q accumulation of one burst (MMD.cpp lines
311-322). -/
def qPairLoop (K : ℕ) (b : QBurst) (s : QState) : QState :=
  (pairList K).foldl (fun st p => qPairUpdate b p.1 p.2 st) s

/-- One whole burst of compute_statistic_and_Q: the statistic accumulation
runs inside the kernel loop, then the Q accumulation runs over the lower
triangle. -/
def qBurstStep (K : ℕ) (s : QState) (b : QBurst) : QState :=
  qPairLoop K b (statLoop K b s)

/-- The burst loop of compute_statistic_and_Q (MMD.cpp lines 289-324).  The
evenness REQUIRE at lines 292-294 runs before merge_samples and before any
accumulator update of that burst, so on an odd burst the loop stops with the
state it had before that burst and reports the offending block count. -/
def runQBursts (K : ℕ) : QState → List QBurst → QState × Option Err
  | s, [] => (s, none)
  | s, b :: rest =>
      if b.nblocks % 2 = 0 then runQBursts K (qBurstStep K s b) rest
      else (s, some (Err.oddBlocks b.nblocks))

/-- CMMD::Self::compute_statistic_and_Q (MMD.cpp lines 264-335), with the
result materialized the way SGVector/SGMatrix hold it.  The final
std::for_each at lines 330-333 binds each entry by value in its lambda, so
normalize_statistic is applied to a discarded copy: the returned statistic
vector holds the raw accumulated means (unlike sample_null, whose lambda
takes its entry by reference). -/
def compute_statistic_and_Q (K : ℕ) (normalize_statistic : ℚ → ℚ)
    (bursts : List QBurst) : Except Err (List ℚ × List (List ℚ)) :=
  if K = 0 then .error .noKernels
  else
    match runQBursts K qInit bursts with
    | (_, some e) => .error e
    | (s, none) =>
        .ok ((List.range K).map s.statistic,
             (List.range K).map (fun i => (List.range K).map (fun j => s.Q i j)))

/-- Entry (i, j) of a materialized matrix, 0 outside its bounds. -/
def entry (M : List (List ℚ)) (i j : ℕ) : ℚ :=
  (M.getD i []).getD j 0

/-- One burst of the null-sampling stream: its block count and, for replicate
index j and block index i, the scalar the permutation job produces for block
i during the j-th compute_jobs pass over that burst (each pass draws fresh
within-block permutations, so the outputs depend on j). -/
structure NullBurst where
  nblocks : ℕ
  perm : ℕ → ℕ → ℚ

/-- The permutation job outputs of one burst for replicate j, in block
order. -/
def nullOutputs (b : NullBurst) (j : ℕ) : List ℚ :=
  (List.range b.nblocks).map (b.perm j)

/-- The replicate loop of sample_null over one burst (MMD.cpp lines 366-376):
for each j below the replicate count, the scalar of every block in the j-th pass is
folded into accumulator j. -/
def nullBurstUpdate (R : ℕ) (accs : ℕ → Accum) (b : NullBurst) : ℕ → Accum :=
  (List.range R).foldl
    (fun f j => Function.update f j (Accum.feed (f j) (nullOutputs b j))) accs

/-- CMMD::Self::sample_null (MMD.cpp lines 337-390).  A missing kernel fails
with kernelNotSet before the stream is consumed; otherwise the accumulated mean of each replicate is normalized (here the lambda takes its entry by
reference, so the normalization is effective). -/
def sample_null (kernel : Option Unit) (R : ℕ)
    (normalize_statistic : ℚ → ℚ)
    (bursts : List NullBurst) : Except Err (List ℚ) :=
  match kernel with
  | none => .error .kernelNotSet
  | some _ =>
      let final := bursts.foldl (nullBurstUpdate R) (fun _ => Accum.init)
      .ok ((List.range R).map (fun j => normalize_statistic (final j).mean))

/-- Modelled from the spec: the DataManager (internals/DataManager.h) is not
under src/; per the external interface section of the spec it exposes
set_train_test_ratio(ratio) and set_train_mode(bool) as plain state setters,
so its state visible to select_kernel is the pair of the last values set. -/
structure DMState where
  train_test_ratio : ℚ
  train_mode : Bool
deriving DecidableEq

/-- CMMD::select_kernel (MMD.cpp lines 460-512) restricted to its effect on
the data manager state.  It sets the requested ratio and turns training mode
on, dispatches on the method (the weighted flag is rejected for
median-heuristic and cross-validation, an unknown method is rejected), and
only the median-heuristic branch resets the ratio to 0 (lines 478-479, before
the policy selection at line 507); every successful branch ends with
set_train_mode(false) at line 510.  The kernel installation through the
kernel manager and the policy internals are external and not modelled. -/
def select_kernel (kmethod : EKernelSelectionMethod) (weighted_kernel : Bool)
    (train_test_ratio : ℚ) (dm : DMState) : Except Err DMState :=
  let dm1 : DMState := { dm with train_test_ratio := train_test_ratio, train_mode := true }
  match kmethod with
  | .KSM_MEDIAN_HEURISTIC =>
      if weighted_kernel then .error .weightedNotAllowed
      else
        let dm2 := { dm1 with train_test_ratio := (0 : ℚ) }
        .ok { dm2 with train_mode := false }
  | .KSM_MAXIMIZE_XVALIDATION =>
      if weighted_kernel then .error .weightedNotAllowed
      else .ok { dm1 with train_mode := false }
  | .KSM_MAXIMIZE_MMD => .ok { dm1 with train_mode := false }
  | .KSM_MAXIMIZE_POWER => .ok { dm1 with train_mode := false }
  | .KSM_AUTO => .error .unsupportedMethod

/-- The configuration state held by CMMD::Self (MMD.cpp lines 84-89), with
the defaults of the constructor at lines 98-105. -/
structure SelfState where
  use_gpu : Bool
  num_null_samples : ℕ
  statistic_type : EStatisticType
  variance_estimation_method : EVarianceEstimationMethod
  null_approximation_method : ENullApproximationMethod
deriving DecidableEq

/-- The constructor CMMD::Self::Self: use_gpu(false), num_null_samples(250),
statistic_type(ST_UNBIASED_FULL), variance_estimation_method(VEM_DIRECT),
null_approximation_method(NAM_PERMUTATION). -/
def selfInit : SelfState :=
  ⟨false, 250, .ST_UNBIASED_FULL, .VEM_DIRECT, .NAM_PERMUTATION⟩

/-- CMMD::set_num_null_samples. -/
def set_num_null_samples (s : SelfState) (n : ℕ) : SelfState :=
  { s with num_null_samples := n }

/-- CMMD::get_num_null_samples. -/
def get_num_null_samples (s : SelfState) : ℕ :=
  s.num_null_samples

/-- CMMD::use_gpu(bool), the setter overload. -/
def set_use_gpu (s : SelfState) (gpu : Bool) : SelfState :=
  { s with use_gpu := gpu }

/-- CMMD::use_gpu() const, the getter overload. -/
def get_use_gpu (s : SelfState) : Bool :=
  s.use_gpu

/-- CMMD::set_statistic_type. -/
def set_statistic_type (s : SelfState) (stype : EStatisticType) : SelfState :=
  { s with statistic_type := stype }

/-- CMMD::get_statistic_type. -/
def get_statistic_type (s : SelfState) : EStatisticType :=
  s.statistic_type

/-- CMMD::set_variance_estimation_method. -/
def set_variance_estimation_method (s : SelfState) (vmethod : EVarianceEstimationMethod) :
    SelfState :=
  { s with variance_estimation_method := vmethod }

/-- CMMD::get_variance_estimation_method. -/
def get_variance_estimation_method (s : SelfState) : EVarianceEstimationMethod :=
  s.variance_estimation_method

/-- CMMD::set_null_approximation_method. -/
def set_null_approximation_method (s : SelfState) (nmethod : ENullApproximationMethod) :
    SelfState :=
  { s with null_approximation_method := nmethod }

/-- CMMD::get_null_approximation_method. -/
def get_null_approximation_method (s : SelfState) : ENullApproximationMethod :=
  s.null_approximation_method

theorem Accum.feed_nil (a : Accum) : Accum.feed a [] = a := rfl

theorem Accum.feed_cons (a : Accum) (v : ℚ) (vs : List ℚ) :
    Accum.feed a (v :: vs) = Accum.feed (Accum.update a v) vs := rfl

theorem Accum.feed_append (a : Accum) (l1 l2 : List ℚ) :
    Accum.feed a (l1 ++ l2) = Accum.feed (Accum.feed a l1) l2 :=
  List.foldl_append Accum.update a l1 l2

/-- With a positive number k of already absorbed observations (counter k + 1),
feeding a list gives the overall weighted mean. -/
theorem Accum.feed_mean_pos (vs : List ℚ) (m : ℚ) (k : ℕ) (hk : 0 < k) :
    (Accum.feed ⟨m, k + 1⟩ vs).mean = (m * k + vs.sum) / ((k : ℚ) + vs.length) := by
  induction vs generalizing m k with
  | nil =>
      have hk' : ((k : ℚ)) ≠ 0 := Nat.cast_ne_zero.mpr hk.ne'
      simp [Accum.feed]
      field_simp
  | cons v vs ih =>
      rw [Accum.feed_cons]
      have h2 : Accum.update ⟨m, k + 1⟩ v = ⟨m + (v - m) / ((k : ℚ) + 1), (k + 1) + 1⟩ := by
        simp only [Accum.update, Accum.mk.injEq]
        constructor
        · push_cast
          ring
        · trivial
      rw [h2, ih (m + (v - m) / ((k : ℚ) + 1)) (k + 1) k.succ_pos]
      have hk1 : ((k : ℚ) + 1) ≠ 0 := by positivity
      have hd1 : ((k : ℚ) + 1 + (vs.length : ℚ)) ≠ 0 := by positivity
      have hd2 : ((k : ℚ) + ((vs.length : ℚ) + 1)) ≠ 0 := by positivity
      simp only [List.sum_cons, List.length_cons]
      push_cast
      rw [div_eq_div_iff hd1 hd2]
      field_simp
      ring

/-- Feeding a whole list into the fresh accumulator yields the arithmetic
mean (0 for the empty list, matching 0 / 0 = 0 over ℚ). -/
theorem Accum.feed_init_mean (vs : List ℚ) :
    (Accum.feed Accum.init vs).mean = vs.sum / vs.length := by
  cases vs with
  | nil => simp [Accum.feed, Accum.init]
  | cons v vs =>
      rw [Accum.feed_cons]
      have h1 : Accum.update Accum.init v = ⟨v, 2⟩ := by
        simp [Accum.update, Accum.init]
      rw [h1]
      have h2 := Accum.feed_mean_pos vs v 1 Nat.one_pos
      rw [h2]
      simp only [List.sum_cons, List.length_cons]
      push_cast
      ring_nf

theorem Accum.feed_counter (a : Accum) (vs : List ℚ) :
    (Accum.feed a vs).counter = a.counter + vs.length := by
  induction vs generalizing a with
  | nil => simp [Accum.feed]
  | cons v vs ih =>
      rw [Accum.feed_cons, ih]
      simp [Accum.update]
      omega

/-- C2: folding any finite sequence of scalars through the online accumulator
rule mean += (value - mean) / n, with the counter starting at 1 and
incrementing after each update, yields exactly the arithmetic mean of the
sequence (in the exact arithmetic of ℚ), and the result is independent of
the feed order of the scalars. -/
theorem claim_C2 (vs vs' : List ℚ) (h : vs.Perm vs') :
    (Accum.feed Accum.init vs).mean = vs.sum / vs.length
    ∧ (Accum.feed Accum.init vs).mean = (Accum.feed Accum.init vs').mean := by
  refine ⟨Accum.feed_init_mean vs, ?_⟩
  rw [Accum.feed_init_mean vs, Accum.feed_init_mean vs', h.sum_eq, h.length_eq]

/-- Witness for C2 at the concrete lists [1, 2, 3] and its reordering
[3, 1, 2]. -/
theorem claim_C2_witness :
    (Accum.feed Accum.init [1, 2, 3]).mean
        = ([1, 2, 3] : List ℚ).sum / (([1, 2, 3] : List ℚ).length : ℚ)
    ∧ (Accum.feed Accum.init [1, 2, 3]).mean = (Accum.feed Accum.init [3, 1, 2]).mean :=
  claim_C2 [1, 2, 3] [3, 1, 2] (by decide)

/-- C1: in permutation variance-estimation mode, the per-scalar fold of
compute_statistic_variance maintains the one-pass streaming rule: the running
mean of the scalar is updated first (mean += (v - mean) / n), the variance
accumulator is then incremented by (v - old mean) * (v - updated mean), and
the counter increments; the burst processing in VEM_PERMUTATION mode is
exactly the fold of this rule over the variance-job scalars; and the rule is
not the old-mean-only square increment (v - old mean)^2, as a concrete state
shows. -/
theorem claim_C1 :
    (∀ (s : SVState) (v : ℚ),
      (foldVarPerm s v).permuted_samples_statistic
          = s.permuted_samples_statistic
            + (v - s.permuted_samples_statistic) / (s.variance_term_counter : ℚ)
      ∧ (foldVarPerm s v).variance
          = s.variance
            + (v - s.permuted_samples_statistic)
              * (v - (foldVarPerm s v).permuted_samples_statistic)
      ∧ (foldVarPerm s v).variance_term_counter = s.variance_term_counter + 1)
    ∧ (∀ (s : SVState) (b : Burst),
        processBurstSV .VEM_PERMUTATION s b
          = (b.blocks.map Prod.snd).foldl foldVarPerm
              ((b.blocks.map Prod.fst).foldl foldStat s))
    ∧ ¬ (∀ (s : SVState) (v : ℚ),
        (foldVarPerm s v).variance
          = s.variance
            + (v - s.permuted_samples_statistic) * (v - s.permuted_samples_statistic)) := by
  refine ⟨fun s v => ⟨rfl, rfl, rfl⟩, fun s b => rfl, ?_⟩
  intro hall
  have h := hall ⟨0, 0, 0, 1, 2⟩ 1
  simp only [foldVarPerm] at h
  norm_num at h

/-- C4: compute_statistic returns the first component of
compute_statistic_variance for every kernel slot and configuration, and with
a bound kernel the returned statistic is the normalization rule applied
exactly once to the raw accumulated running mean. -/
theorem claim_C4 (vem : EVarianceEstimationMethod)
    (normalize_statistic normalize_variance : ℚ → ℚ) (bursts : List Burst) :
    (∀ kernel,
      compute_statistic kernel vem normalize_statistic normalize_variance bursts
        = (compute_statistic_variance kernel vem normalize_statistic normalize_variance
            bursts).map Prod.fst)
    ∧ compute_statistic (some ()) vem normalize_statistic normalize_variance bursts
        = .ok (normalize_statistic ((bursts.foldl (processBurstSV vem) svInit).statistic)) :=
  ⟨fun _ => rfl, rfl⟩

/-- C9: with no kernel bound in slot 0, compute_statistic_variance and
sample_null both fail with the kernel-not-set error, for every configuration
and every stream, so no partial result is produced. -/
theorem claim_C9 (vem : EVarianceEstimationMethod)
    (normalize_statistic normalize_variance : ℚ → ℚ) (bursts : List Burst)
    (R : ℕ) (normalize_null : ℚ → ℚ) (nbursts : List NullBurst) :
    compute_statistic_variance none vem normalize_statistic normalize_variance bursts
        = .error .kernelNotSet
    ∧ sample_null none R normalize_null nbursts = .error .kernelNotSet :=
  ⟨rfl, rfl⟩

/-- C10: a fresh engine state has the defaults null-sample count 250,
statistic type unbiased-full, variance-estimation method direct,
null-approximation method permutation and GPU off; each getter returns
exactly the value last stored by its own setter, and no setter disturbs the
other four fields. -/
theorem claim_C10 :
    (get_num_null_samples selfInit = 250
      ∧ get_statistic_type selfInit = .ST_UNBIASED_FULL
      ∧ get_variance_estimation_method selfInit = .VEM_DIRECT
      ∧ get_null_approximation_method selfInit = .NAM_PERMUTATION
      ∧ get_use_gpu selfInit = false)
    ∧ (∀ s n, get_num_null_samples (set_num_null_samples s n) = n)
    ∧ (∀ s t, get_statistic_type (set_statistic_type s t) = t)
    ∧ (∀ s v, get_variance_estimation_method (set_variance_estimation_method s v) = v)
    ∧ (∀ s m, get_null_approximation_method (set_null_approximation_method s m) = m)
    ∧ (∀ s g, get_use_gpu (set_use_gpu s g) = g)
    ∧ (∀ s n,
        get_statistic_type (set_num_null_samples s n) = get_statistic_type s
        ∧ get_variance_estimation_method (set_num_null_samples s n)
            = get_variance_estimation_method s
        ∧ get_null_approximation_method (set_num_null_samples s n)
            = get_null_approximation_method s
        ∧ get_use_gpu (set_num_null_samples s n) = get_use_gpu s)
    ∧ (∀ s t,
        get_num_null_samples (set_statistic_type s t) = get_num_null_samples s
        ∧ get_variance_estimation_method (set_statistic_type s t)
            = get_variance_estimation_method s
        ∧ get_null_approximation_method (set_statistic_type s t)
            = get_null_approximation_method s
        ∧ get_use_gpu (set_statistic_type s t) = get_use_gpu s)
    ∧ (∀ s v,
        get_num_null_samples (set_variance_estimation_method s v) = get_num_null_samples s
        ∧ get_statistic_type (set_variance_estimation_method s v) = get_statistic_type s
        ∧ get_null_approximation_method (set_variance_estimation_method s v)
            = get_null_approximation_method s
        ∧ get_use_gpu (set_variance_estimation_method s v) = get_use_gpu s)
    ∧ (∀ s m,
        get_num_null_samples (set_null_approximation_method s m) = get_num_null_samples s
        ∧ get_statistic_type (set_null_approximation_method s m) = get_statistic_type s
        ∧ get_variance_estimation_method (set_null_approximation_method s m)
            = get_variance_estimation_method s
        ∧ get_use_gpu (set_null_approximation_method s m) = get_use_gpu s)
    ∧ (∀ s g,
        get_num_null_samples (set_use_gpu s g) = get_num_null_samples s
        ∧ get_statistic_type (set_use_gpu s g) = get_statistic_type s
        ∧ get_variance_estimation_method (set_use_gpu s g)
            = get_variance_estimation_method s
        ∧ get_null_approximation_method (set_use_gpu s g)
            = get_null_approximation_method s) :=
  ⟨⟨rfl, rfl, rfl, rfl, rfl⟩,
    fun _ _ => rfl, fun _ _ => rfl, fun _ _ => rfl, fun _ _ => rfl, fun _ _ => rfl,
    fun _ _ => ⟨rfl, rfl, rfl, rfl⟩, fun _ _ => ⟨rfl, rfl, rfl, rfl⟩,
    fun _ _ => ⟨rfl, rfl, rfl, rfl⟩, fun _ _ => ⟨rfl, rfl, rfl, rfl⟩,
    fun _ _ => ⟨rfl, rfl, rfl, rfl⟩⟩

/-- C8 counterexample: with the measure-maximization method (a supported
method), a requested training ratio of 1/2 and a data manager whose ratio
was 0, select_kernel succeeds but returns with the ratio still 1/2, so the
split ratio is not reset before returning (only training mode is turned
off). -/
theorem claim_C8_counterexample :
    select_kernel .KSM_MAXIMIZE_MMD false (1/2) ⟨0, false⟩
        = .ok ⟨1/2, false⟩
    ∧ ((1 : ℚ)/2 ≠ 0) := by
  refine ⟨rfl, ?_⟩
  norm_num

/-- C8 amended: for every supported selection method select_kernel, when it
succeeds, turns training mode off before returning; the train/test split
ratio however is reset (to 0) only by the median-heuristic branch, where the
reset happens before the policy selection; every other supported method
returns with the ratio still at the requested training value. -/
theorem claim_C8 (kmethod : EKernelSelectionMethod) (weighted_kernel : Bool)
    (ratio : ℚ) (dm dm' : DMState)
    (h : select_kernel kmethod weighted_kernel ratio dm = .ok dm') :
    dm'.train_mode = false
    ∧ (kmethod = .KSM_MEDIAN_HEURISTIC → dm'.train_test_ratio = 0)
    ∧ (kmethod ≠ .KSM_MEDIAN_HEURISTIC → dm'.train_test_ratio = ratio) := by
  cases kmethod <;> cases weighted_kernel <;>
    first
      | exact Except.noConfusion h
      | (cases Except.ok.inj h
         exact ⟨rfl, fun _ => rfl, fun hne => absurd rfl hne⟩)
      | (cases Except.ok.inj h
         exact ⟨rfl, fun hc => EKernelSelectionMethod.noConfusion hc, fun _ => rfl⟩)

/-- Witness for C8 amended, instantiated at the median-heuristic method. -/
theorem claim_C8_witness :
    (⟨0, false⟩ : DMState).train_mode = false
    ∧ (⟨0, false⟩ : DMState).train_test_ratio = 0 :=
  ⟨(claim_C8 .KSM_MEDIAN_HEURISTIC false (1/3) ⟨5, true⟩ ⟨0, false⟩ rfl).1,
   (claim_C8 .KSM_MEDIAN_HEURISTIC false (1/3) ⟨5, true⟩ ⟨0, false⟩ rfl).2.1 rfl⟩

/-- C7 (code bug): on the concrete stream of one even burst with statistic
job outputs 0 and 1 for the single kernel, compute_statistic_and_Q returns
the raw accumulated mean 1/2 in the statistic vector, although the
normalization rule (here x + 1) would map it to 3/2: the final for_each binds
its entry by value, so the normalized value is discarded. -/
theorem claim_C7_bug :
    compute_statistic_and_Q 1 (fun x => x + 1) [⟨2, fun _ i => (i : ℚ)⟩]
        = .ok ([1/2], [[1]])
    ∧ ((1 : ℚ)/2 + 1 ≠ 1/2) := by
  have hr1 : List.range 1 = [0] := rfl
  have hr2 : List.range 2 = [0, 1] := rfl
  constructor
  · norm_num [compute_statistic_and_Q, runQBursts, qBurstStep, qPairLoop, pairList,
      qPairUpdate, statLoop, qInit, blockVals, qTerms, Accum.feed, Accum.update,
      Function.update, hr1, hr2]
  · norm_num

/-- The replicate loop of one burst touches exactly the accumulators with
index below the replicate count, feeding each its own outputs. -/
theorem nullBurstUpdate_apply (R : ℕ) (accs : ℕ → Accum) (b : NullBurst) (j : ℕ) :
    nullBurstUpdate R accs b j
      = if j < R then Accum.feed (accs j) (nullOutputs b j) else accs j := by
  induction R with
  | zero => simp [nullBurstUpdate]
  | succ R ih =>
      have hstep : nullBurstUpdate (R + 1) accs b
          = Function.update (nullBurstUpdate R accs b) R
              (Accum.feed (nullBurstUpdate R accs b R) (nullOutputs b R)) := by
        unfold nullBurstUpdate
        rw [List.range_succ, List.foldl_append]
        rfl
      rw [hstep]
      by_cases hj : j = R
      · subst hj
        simp [Function.update_same, ih]
      · rw [Function.update_noteq hj, ih]
        by_cases hlt : j < R
        · simp [hlt, Nat.lt_succ_of_lt hlt]
        · have hge : ¬ j < R + 1 := by omega
          simp [hlt, hge]

/-- Across the whole stream, replicate accumulator j collects exactly the
concatenation of its per-burst output lists. -/
theorem sampleNullFold_apply (R : ℕ) (bursts : List NullBurst) (accs : ℕ → Accum)
    (j : ℕ) (hj : j < R) :
    (bursts.foldl (nullBurstUpdate R) accs) j
      = Accum.feed (accs j) (bursts.flatMap (fun b => nullOutputs b j)) := by
  induction bursts generalizing accs with
  | nil => simp [Accum.feed]
  | cons b rest ih =>
      rw [List.foldl_cons, ih (nullBurstUpdate R accs b),
        nullBurstUpdate_apply, if_pos hj, List.flatMap_cons, Accum.feed_append]

/-- C5: with a bound kernel, sample_null over a stream of bursts returns
exactly R values for replicate count R, and the j-th value is the statistic
normalization applied to the running mean, over all blocks of all bursts, of
the permutation job outputs for replicate index j; equivalently it is the
normalization of (sum of those outputs) / K where K is the total block
count of the stream. -/
theorem claim_C5 (R : ℕ) (normalize_statistic : ℚ → ℚ) (bursts : List NullBurst)
    (out : List ℚ) (h : sample_null (some ()) R normalize_statistic bursts = .ok out) :
    out.length = R
    ∧ ∀ j, j < R →
        out[j]? = some (normalize_statistic
            (Accum.feed Accum.init (bursts.flatMap (fun b => nullOutputs b j))).mean)
        ∧ out[j]? = some (normalize_statistic
            ((bursts.flatMap (fun b => nullOutputs b j)).sum
              / (((bursts.map (fun b => b.nblocks)).sum : ℕ) : ℚ))) := by
  cases Except.ok.inj h
  constructor
  · simp
  · intro j hj
    have hfold := sampleNullFold_apply R bursts (fun _ => Accum.init) j hj
    have hlen : (bursts.flatMap (fun b => nullOutputs b j)).length
        = (bursts.map (fun b => b.nblocks)).sum := by
      rw [List.length_flatMap]
      congr 2
      funext b
      simp [nullOutputs]
    constructor
    · rw [List.getElem?_map, List.getElem?_range hj]
      simp only [Option.map]
      rw [hfold]
    · rw [List.getElem?_map, List.getElem?_range hj]
      simp only [Option.map]
      rw [hfold, Accum.feed_init_mean, hlen]

/-- A property preserved by every step of a left fold holds of the fold. -/
theorem foldl_preserve {α β : Type} (P : α → Prop) (f : α → β → α) :
    ∀ (l : List β) (a : α), P a → (∀ x b, P x → P (f x b)) → P (l.foldl f a)
  | [], _, ha, _ => ha
  | b :: l, a, ha, hf => foldl_preserve P f l (f a b) (hf a b ha) hf

/-- The statistic loop of a burst does not touch the Q matrix or its
counters. -/
theorem statLoop_Q (K : ℕ) (b : QBurst) (s : QState) :
    (statLoop K b s).Q = s.Q ∧ (statLoop K b s).qCounter = s.qCounter := by
  unfold statLoop
  refine foldl_preserve (fun st => st.Q = s.Q ∧ st.qCounter = s.qCounter) _ (List.range K) s
    ⟨rfl, rfl⟩ ?_
  intro st k hp
  exact hp

theorem qPairUpdate_Q_self (b : QBurst) (i j : ℕ) (s : QState) :
    (qPairUpdate b i j s).Q i j
      = (Accum.feed ⟨s.Q i j, s.qCounter i j⟩ (qTerms b i j)).mean := by
  simp [qPairUpdate]

theorem qPairUpdate_Q_mirror (b : QBurst) (i j : ℕ) (s : QState) :
    (qPairUpdate b i j s).Q j i
      = (Accum.feed ⟨s.Q i j, s.qCounter i j⟩ (qTerms b i j)).mean := by
  simp [qPairUpdate]

theorem qPairUpdate_counter_self (b : QBurst) (i j : ℕ) (s : QState) :
    (qPairUpdate b i j s).qCounter i j
      = (Accum.feed ⟨s.Q i j, s.qCounter i j⟩ (qTerms b i j)).counter := by
  simp [qPairUpdate]

theorem qPairUpdate_Q_ne (b : QBurst) (i j p q : ℕ) (s : QState)
    (h1 : ¬(p = i ∧ q = j)) (h2 : ¬(p = j ∧ q = i)) :
    (qPairUpdate b i j s).Q p q = s.Q p q := by
  simp [qPairUpdate, h1, h2]

theorem qPairUpdate_counter_ne (b : QBurst) (i j p q : ℕ) (s : QState)
    (h1 : ¬(p = i ∧ q = j)) :
    (qPairUpdate b i j s).qCounter p q = s.qCounter p q := by
  simp [qPairUpdate, h1]

/-- A run of pair updates that never names the cell (x, y) in either
orientation leaves Q at (x, y) alone. -/
theorem foldPairs_Q_ne (b : QBurst) (x y : ℕ) :
    ∀ (L : List (ℕ × ℕ)) (s : QState),
      (∀ p ∈ L, ¬(x = p.1 ∧ y = p.2) ∧ ¬(x = p.2 ∧ y = p.1)) →
      (L.foldl (fun st p => qPairUpdate b p.1 p.2 st) s).Q x y = s.Q x y
  | [], _, _ => rfl
  | p :: L, s, hL => by
      rw [List.foldl_cons,
        foldPairs_Q_ne b x y L _ (fun q hq => hL q (List.mem_cons_of_mem p hq))]
      exact qPairUpdate_Q_ne b p.1 p.2 x y s (hL p (List.mem_cons_self p L)).1
        (hL p (List.mem_cons_self p L)).2

/-- A run of pair updates that never names the pair (x, y) itself leaves its
term counter alone. -/
theorem foldPairs_counter_ne (b : QBurst) (x y : ℕ) :
    ∀ (L : List (ℕ × ℕ)) (s : QState),
      (∀ p ∈ L, ¬(x = p.1 ∧ y = p.2)) →
      (L.foldl (fun st p => qPairUpdate b p.1 p.2 st) s).qCounter x y = s.qCounter x y
  | [], _, _ => rfl
  | p :: L, s, hL => by
      rw [List.foldl_cons,
        foldPairs_counter_ne b x y L _ (fun q hq => hL q (List.mem_cons_of_mem p hq))]
      exact qPairUpdate_counter_ne b p.1 p.2 x y s (hL p (List.mem_cons_self p L))

theorem mem_pairList {K x y : ℕ} : (x, y) ∈ pairList K ↔ x < K ∧ y ≤ x := by
  unfold pairList
  rw [List.mem_flatMap]
  constructor
  · rintro ⟨i, hi, hmem⟩
    rw [List.mem_map] at hmem
    obtain ⟨j, hj, hpq⟩ := hmem
    injection hpq with e1 e2
    subst e1
    subst e2
    exact ⟨List.mem_range.mp hi, Nat.lt_succ_iff.mp (List.mem_range.mp hj)⟩
  · rintro ⟨hx, hy⟩
    exact ⟨x, List.mem_range.mpr hx,
      List.mem_map.mpr ⟨y, List.mem_range.mpr (Nat.lt_succ_iff.mpr hy), rfl⟩⟩

theorem pairList_succ (K : ℕ) :
    pairList (K + 1) = pairList K ++ (List.range (K + 1)).map (fun j => (K, j)) := by
  unfold pairList
  rw [List.range_succ, List.flatMap_append]
  congr 1
  simp [List.range_succ]

theorem pairList_nodup (K : ℕ) : (pairList K).Nodup := by
  induction K with
  | zero => simp [pairList]
  | succ K ih =>
      rw [pairList_succ]
      refine List.Nodup.append ih ?_ ?_
      · exact (List.nodup_range (K + 1)).map (fun a b hab => congrArg Prod.snd hab)
      · intro p hp1 hp2
        obtain ⟨x, y⟩ := p
        have h1 := (mem_pairList.mp hp1).1
        rw [List.mem_map] at hp2
        obtain ⟨j, hj, hpq⟩ := hp2
        injection hpq with e1 e2
        omega

theorem nodup_split_not_mem {α : Type} {l1 l2 : List α} {a : α}
    (h : (l1 ++ a :: l2).Nodup) : a ∉ l1 ∧ a ∉ l2 := by
  rw [List.nodup_append] at h
  obtain ⟨h1, h2, hdisj⟩ := h
  rw [List.nodup_cons] at h2
  exact ⟨fun hmem => hdisj hmem (List.mem_cons_self a l2), h2.1⟩

/-- A lower-triangle pair distinct from (i, j) writes neither the (i, j) nor
the (j, i) Q cell nor the (i, j) term counter. -/
theorem pair_nontouch {i j a c : ℕ} (hj : j ≤ i) (hp : c ≤ a)
    (hne : ¬(a = i ∧ c = j)) :
    (¬(i = a ∧ j = c) ∧ ¬(i = c ∧ j = a))
    ∧ (¬(j = a ∧ i = c) ∧ ¬(j = c ∧ i = a)) := by
  refine ⟨⟨?_, ?_⟩, ?_, ?_⟩ <;> omega

/-- After one lower-triangle pass over a burst, the (i, j) cell (j ≤ i < K)
and its mirror hold the online fold of the cross terms of the burst over the
previous cell state, and the counter advanced accordingly. -/
theorem qPairLoop_cell (K : ℕ) (b : QBurst) (s : QState) (i j : ℕ)
    (hi : i < K) (hj : j ≤ i) :
    ((⟨(qPairLoop K b s).Q i j, (qPairLoop K b s).qCounter i j⟩ : Accum)
        = Accum.feed ⟨s.Q i j, s.qCounter i j⟩ (qTerms b i j))
    ∧ (qPairLoop K b s).Q j i
        = (Accum.feed ⟨s.Q i j, s.qCounter i j⟩ (qTerms b i j)).mean := by
  obtain ⟨L1, L2, hsplit⟩ := List.append_of_mem (mem_pairList.mpr ⟨hi, hj⟩)
  have hnd := pairList_nodup K
  rw [hsplit] at hnd
  obtain ⟨hnotm1, hnotm2⟩ := nodup_split_not_mem hnd
  have hL1 : ∀ p ∈ L1, p.2 ≤ p.1 ∧ p ≠ (i, j) := by
    intro p hp
    refine ⟨?_, fun hpe => hnotm1 (hpe ▸ hp)⟩
    have hmem : p ∈ pairList K := by
      rw [hsplit]
      exact List.mem_append.mpr (Or.inl hp)
    obtain ⟨a, c⟩ := p
    exact (mem_pairList.mp hmem).2
  have hL2 : ∀ p ∈ L2, p.2 ≤ p.1 ∧ p ≠ (i, j) := by
    intro p hp
    refine ⟨?_, fun hpe => hnotm2 (hpe ▸ hp)⟩
    have hmem : p ∈ pairList K := by
      rw [hsplit]
      exact List.mem_append.mpr (Or.inr (List.mem_cons_of_mem _ hp))
    obtain ⟨a, c⟩ := p
    exact (mem_pairList.mp hmem).2
  have hne_of : ∀ (a c : ℕ), c ≤ a ∧ (a, c) ≠ (i, j) → ¬(a = i ∧ c = j) := by
    rintro a c ⟨hp1, hp2⟩ ⟨he1, he2⟩
    exact hp2 (by rw [he1, he2])
  unfold qPairLoop
  rw [hsplit, List.foldl_append, List.foldl_cons]
  have hpre : ∀ p ∈ L1, ¬(i = p.1 ∧ j = p.2) ∧ ¬(i = p.2 ∧ j = p.1) := by
    intro p hp
    obtain ⟨a, c⟩ := p
    exact (pair_nontouch hj (hL1 ⟨a, c⟩ hp).1 (hne_of a c (hL1 ⟨a, c⟩ hp))).1
  have hpreQ := foldPairs_Q_ne b i j L1 s hpre
  have hpreC := foldPairs_counter_ne b i j L1 s (fun p hp => (hpre p hp).1)
  have hpost1 : ∀ p ∈ L2, ¬(i = p.1 ∧ j = p.2) ∧ ¬(i = p.2 ∧ j = p.1) := by
    intro p hp
    obtain ⟨a, c⟩ := p
    exact (pair_nontouch hj (hL2 ⟨a, c⟩ hp).1 (hne_of a c (hL2 ⟨a, c⟩ hp))).1
  have hpost2 : ∀ p ∈ L2, ¬(j = p.1 ∧ i = p.2) ∧ ¬(j = p.2 ∧ i = p.1) := by
    intro p hp
    obtain ⟨a, c⟩ := p
    exact (pair_nontouch hj (hL2 ⟨a, c⟩ hp).1 (hne_of a c (hL2 ⟨a, c⟩ hp))).2
  have hQij := foldPairs_Q_ne b i j L2 (qPairUpdate b i j (L1.foldl (fun st p => qPairUpdate b p.1 p.2 st) s)) hpost1
  have hQji := foldPairs_Q_ne b j i L2 (qPairUpdate b i j (L1.foldl (fun st p => qPairUpdate b p.1 p.2 st) s)) hpost2
  have hCij := foldPairs_counter_ne b i j L2 (qPairUpdate b i j (L1.foldl (fun st p => qPairUpdate b p.1 p.2 st) s)) (fun p hp => (hpost1 p hp).1)
  constructor
  · rw [hQij, hCij, qPairUpdate_Q_self, qPairUpdate_counter_self, hpreQ, hpreC]
  · rw [hQji, qPairUpdate_Q_mirror, hpreQ, hpreC]

/-- One whole burst of compute_statistic_and_Q advances the (i, j) running
Q accumulator (j ≤ i < K) by exactly the cross terms of the burst. -/
theorem qBurstStep_cell (K : ℕ) (b : QBurst) (s : QState) (i j : ℕ)
    (hi : i < K) (hj : j ≤ i) :
    (⟨(qBurstStep K s b).Q i j, (qBurstStep K s b).qCounter i j⟩ : Accum)
      = Accum.feed ⟨s.Q i j, s.qCounter i j⟩ (qTerms b i j) := by
  have hs := statLoop_Q K b s
  have h := (qPairLoop_cell K b (statLoop K b s) i j hi hj).1
  rw [hs.1, hs.2] at h
  exact h

/-- Across a whole stream of bursts, the (i, j) cell of the Q state is the
online accumulator fed with the concatenated cross terms of all bursts. -/
theorem foldQ_cell (K i j : ℕ) (hi : i < K) (hj : j ≤ i) :
    ∀ (bursts : List QBurst) (s : QState),
      (⟨(bursts.foldl (qBurstStep K) s).Q i j,
        (bursts.foldl (qBurstStep K) s).qCounter i j⟩ : Accum)
        = Accum.feed ⟨s.Q i j, s.qCounter i j⟩ (bursts.flatMap (fun b => qTerms b i j))
  | [], s => by simp [Accum.feed]
  | b :: rest, s => by
      rw [List.foldl_cons, foldQ_cell K i j hi hj rest (qBurstStep K s b),
        qBurstStep_cell K b s i j hi hj, List.flatMap_cons, Accum.feed_append]

theorem qPairUpdate_symm (b : QBurst) (i j : ℕ) (s : QState)
    (hs : ∀ p q, s.Q p q = s.Q q p) (p q : ℕ) :
    (qPairUpdate b i j s).Q p q = (qPairUpdate b i j s).Q q p := by
  by_cases h : (p = i ∧ q = j) ∨ (p = j ∧ q = i)
  · have h' : (q = i ∧ p = j) ∨ (q = j ∧ p = i) := by tauto
    simp [qPairUpdate, h, h']
  · have h' : ¬((q = i ∧ p = j) ∨ (q = j ∧ p = i)) := by tauto
    simp [qPairUpdate, h, h', hs p q]

theorem qBurstStep_symm (K : ℕ) (b : QBurst) (s : QState)
    (hs : ∀ p q, s.Q p q = s.Q q p) (p q : ℕ) :
    (qBurstStep K s b).Q p q = (qBurstStep K s b).Q q p := by
  unfold qBurstStep qPairLoop
  have h1 : ∀ p q, (statLoop K b s).Q p q = (statLoop K b s).Q q p := by
    rw [(statLoop_Q K b s).1]
    exact hs
  exact foldl_preserve (fun st => ∀ p q, st.Q p q = st.Q q p)
    (fun st pr => qPairUpdate b pr.1 pr.2 st) (pairList K) (statLoop K b s)
    h1 (fun st pr hp => qPairUpdate_symm b pr.1 pr.2 st hp) p q

/-- Symmetry of the Q state is an invariant of the whole stream. -/
theorem foldQ_symm (K : ℕ) (bursts : List QBurst) (s : QState)
    (hs : ∀ p q, s.Q p q = s.Q q p) (p q : ℕ) :
    (bursts.foldl (qBurstStep K) s).Q p q = (bursts.foldl (qBurstStep K) s).Q q p :=
  foldl_preserve (fun st => ∀ p q, st.Q p q = st.Q q p) (qBurstStep K) bursts s hs
    (fun st b hp => qBurstStep_symm K b st hp) p q

/-- A run that finishes without error is the plain fold of the burst steps. -/
theorem runQBursts_none (K : ℕ) :
    ∀ (bursts : List QBurst) (s s' : QState),
      runQBursts K s bursts = (s', none) → s' = bursts.foldl (qBurstStep K) s
  | [], s, s', h => by
      unfold runQBursts at h
      injection h with h1 h2
      exact h1.symm
  | b :: rest, s, s', h => by
      unfold runQBursts at h
      by_cases he : b.nblocks % 2 = 0
      · rw [if_pos he] at h
        rw [List.foldl_cons]
        exact runQBursts_none K rest (qBurstStep K s b) s' h
      · rw [if_neg he] at h
        injection h with h1 h2
        exact Option.noConfusion h2

/-- The burst loop, started anywhere, folds an even prefix and then stops on
the first odd burst, reporting its block count, with the state it had before
that burst. -/
theorem runQBursts_stops (K : ℕ) (bad : QBurst) (rest : List QBurst)
    (hbad : bad.nblocks % 2 ≠ 0) :
    ∀ (good : List QBurst), (∀ b ∈ good, b.nblocks % 2 = 0) → ∀ (s : QState),
      runQBursts K s (good ++ bad :: rest)
        = (good.foldl (qBurstStep K) s, some (Err.oddBlocks bad.nblocks))
  | [], _, s => by
      rw [List.nil_append]
      unfold runQBursts
      rw [if_neg hbad]
      rfl
  | g :: good, hgood, s => by
      rw [List.cons_append]
      unfold runQBursts
      rw [if_pos (hgood g (List.mem_cons_self g good)),
        runQBursts_stops K bad rest hbad good
          (fun b hb => hgood b (List.mem_cons_of_mem g hb)) (qBurstStep K s g),
        List.foldl_cons]

/-- C6: a burst with an odd block count makes compute_statistic_and_Q fail
with the data-shape error carrying that block count; the burst loop stops at
that burst with exactly the accumulator state produced by the preceding even
bursts, so the offending burst modifies no statistic or Q accumulator (the
check runs before any fold of its data). -/
theorem claim_C6 (K : ℕ) (hK : K ≠ 0) (normalize_statistic : ℚ → ℚ)
    (good : List QBurst) (bad : QBurst) (rest : List QBurst)
    (hgood : ∀ b ∈ good, b.nblocks % 2 = 0) (hbad : bad.nblocks % 2 ≠ 0) :
    runQBursts K qInit (good ++ bad :: rest)
      = (good.foldl (qBurstStep K) qInit, some (Err.oddBlocks bad.nblocks))
    ∧ compute_statistic_and_Q K normalize_statistic (good ++ bad :: rest)
      = .error (Err.oddBlocks bad.nblocks) := by
  have h1 := runQBursts_stops K bad rest hbad good hgood qInit
  refine ⟨h1, ?_⟩
  unfold compute_statistic_and_Q
  rw [if_neg hK, h1]

/-- Witness for C6: one kernel, an empty even prefix and an odd single-block
burst. -/
theorem claim_C6_witness :
    runQBursts 1 qInit ([] ++ (⟨1, fun _ _ => 0⟩ : QBurst) :: [])
      = (([] : List QBurst).foldl (qBurstStep 1) qInit, some (Err.oddBlocks 1))
    ∧ compute_statistic_and_Q 1 (fun x => x) ([] ++ (⟨1, fun _ _ => 0⟩ : QBurst) :: [])
      = .error (Err.oddBlocks 1) :=
  claim_C6 1 (by decide) (fun x => x) [] ⟨1, fun _ _ => 0⟩ [] (by simp) (by decide)

theorem qTerms_comm (b : QBurst) (i j : ℕ) : qTerms b i j = qTerms b j i := by
  unfold qTerms
  have h : (fun k => (b.mmd i (2 * k) - b.mmd i (2 * k + 1))
        * (b.mmd j (2 * k) - b.mmd j (2 * k + 1)))
      = (fun k => (b.mmd j (2 * k) - b.mmd j (2 * k + 1))
        * (b.mmd i (2 * k) - b.mmd i (2 * k + 1))) :=
    funext (fun k => mul_comm _ _)
  rw [h]

theorem entry_materialized (K : ℕ) (f : ℕ → ℕ → ℚ) (i j : ℕ) (hi : i < K) (hj : j < K) :
    entry ((List.range K).map (fun p => (List.range K).map (fun q => f p q))) i j
      = f i j := by
  unfold entry
  simp only [List.getD_eq_getElem?_getD, List.getElem?_map, List.getElem?_range hi]
  simp only [Option.map, Option.getD]
  simp only [List.getElem?_map, List.getElem?_range hj]
  simp only [Option.map, Option.getD]

/-- C3: whenever compute_statistic_and_Q succeeds, the returned Q matrix is
symmetric on the kernel index range, every entry (i, j) is the running mean,
over all adjacent block pairs (2k, 2k+1) of all bursts, of the product
(mmd_i[2k]-mmd_i[2k+1]) * (mmd_j[2k]-mmd_j[2k+1]), and each diagonal entry
is the running mean of the squared differences of kernel i itself. -/
theorem claim_C3 (K : ℕ) (normalize_statistic : ℚ → ℚ) (bursts : List QBurst)
    (stat : List ℚ) (Qm : List (List ℚ))
    (h : compute_statistic_and_Q K normalize_statistic bursts = .ok (stat, Qm)) :
    (∀ i, i < K → ∀ j, j < K → entry Qm i j = entry Qm j i)
    ∧ (∀ i, i < K → ∀ j, j < K →
        entry Qm i j
          = (Accum.feed Accum.init (bursts.flatMap (fun b => qTerms b i j))).mean)
    ∧ (∀ i, i < K →
        entry Qm i i
          = (Accum.feed Accum.init (bursts.flatMap (fun b =>
              (List.range (b.nblocks / 2)).map (fun k =>
                (b.mmd i (2 * k) - b.mmd i (2 * k + 1)) ^ 2)))).mean) := by
  unfold compute_statistic_and_Q at h
  by_cases hK : K = 0
  · rw [if_pos hK] at h
    exact Except.noConfusion h
  rw [if_neg hK] at h
  rcases hrun : runQBursts K qInit bursts with ⟨s, oe⟩
  rw [hrun] at h
  cases oe with
  | some e => exact Except.noConfusion h
  | none =>
      have hs := runQBursts_none K bursts qInit s hrun
      subst hs
      injection Except.ok.inj h with hstat hQm
      subst hQm
      have hsymm := foldQ_symm K bursts qInit (fun p q => rfl)
      have hmean : ∀ i, i < K → ∀ j, j ≤ i →
          (bursts.foldl (qBurstStep K) qInit).Q i j
            = (Accum.feed Accum.init (bursts.flatMap (fun b => qTerms b i j))).mean := by
        intro i hi j hj
        have hc := foldQ_cell K i j hi hj bursts qInit
        exact congrArg Accum.mean hc
      have hmean2 : ∀ i, i < K → ∀ j, j < K →
          (bursts.foldl (qBurstStep K) qInit).Q i j
            = (Accum.feed Accum.init (bursts.flatMap (fun b => qTerms b i j))).mean := by
        intro i hi j hj
        rcases le_or_lt j i with hji | hij
        · exact hmean i hi j hji
        · have hflip : (fun b => qTerms b j i) = (fun b => qTerms b i j) :=
            funext (fun b => (qTerms_comm b i j).symm)
          rw [hsymm i j, hmean j hj i (le_of_lt hij), hflip]
      refine ⟨?_, ?_, ?_⟩
      · intro i hi j hj
        rw [entry_materialized K _ i j hi hj, entry_materialized K _ j i hj hi]
        exact hsymm i j
      · intro i hi j hj
        rw [entry_materialized K _ i j hi hj]
        exact hmean2 i hi j hj
      · intro i hi
        rw [entry_materialized K _ i i hi hi]
        have hsq : (fun b : QBurst => qTerms b i i)
            = (fun b : QBurst => (List.range (b.nblocks / 2)).map (fun k =>
                (b.mmd i (2 * k) - b.mmd i (2 * k + 1)) ^ 2)) := by
          funext b
          unfold qTerms
          have h2 : (fun k => (b.mmd i (2 * k) - b.mmd i (2 * k + 1))
                * (b.mmd i (2 * k) - b.mmd i (2 * k + 1)))
              = (fun k => (b.mmd i (2 * k) - b.mmd i (2 * k + 1)) ^ 2) :=
            funext (fun k => (pow_two (b.mmd i (2 * k) - b.mmd i (2 * k + 1))).symm)
          rw [h2]
        rw [hmean2 i hi i hi, hsq]

/-- Witness for C5: replicate count 2, one burst with one block, permutation
outputs equal to the replicate index, normalization x ↦ 2 x. -/
theorem claim_C5_witness :
    ([0, 2] : List ℚ).length = 2
    ∧ ([0, 2] : List ℚ)[1]? = some ((fun x => 2 * x)
        (Accum.feed Accum.init
          (([⟨1, fun j _ => (j : ℚ)⟩] : List NullBurst).flatMap
            (fun b => nullOutputs b 1))).mean) := by
  have h : sample_null (some ()) 2 (fun x => 2 * x) [⟨1, fun j _ => (j : ℚ)⟩]
      = .ok ([0, 2] : List ℚ) := by
    have hr1 : List.range 1 = [0] := rfl
    have hr2 : List.range 2 = [0, 1] := rfl
    norm_num [sample_null, nullBurstUpdate, nullOutputs, Accum.feed, Accum.update,
      Accum.init, Function.update, hr1, hr2]
  exact ⟨(claim_C5 2 (fun x => 2 * x) [⟨1, fun j _ => (j : ℚ)⟩] [0, 2] h).1,
    ((claim_C5 2 (fun x => 2 * x) [⟨1, fun j _ => (j : ℚ)⟩] [0, 2] h).2 1 (by omega)).1⟩

/-- Witness for C3: two kernels, one burst of two blocks. -/
theorem claim_C3_witness :
    entry [[1, 1], [1, 1]] 0 1 = entry [[1, 1], [1, 1]] 1 0
    ∧ entry [[1, 1], [1, 1]] 0 1
        = (Accum.feed Accum.init
            (([⟨2, fun k i => ((2 * k + i : ℕ) : ℚ)⟩] : List QBurst).flatMap
              (fun b => qTerms b 0 1))).mean
    ∧ entry [[1, 1], [1, 1]] 0 0
        = (Accum.feed Accum.init
            (([⟨2, fun k i => ((2 * k + i : ℕ) : ℚ)⟩] : List QBurst).flatMap
              (fun b => (List.range (b.nblocks / 2)).map (fun k =>
                (b.mmd 0 (2 * k) - b.mmd 0 (2 * k + 1)) ^ 2)))).mean := by
  have h : compute_statistic_and_Q 2 (fun x => x + 1)
      [⟨2, fun k i => ((2 * k + i : ℕ) : ℚ)⟩]
      = .ok ([1/2, 5/2], [[1, 1], [1, 1]]) := by
    have hr1 : List.range 1 = [0] := rfl
    have hr2 : List.range 2 = [0, 1] := rfl
    have hp : pairList 2 = [(0, 0), (1, 0), (1, 1)] := rfl
    norm_num [compute_statistic_and_Q, runQBursts, qBurstStep, qPairLoop, qPairUpdate,
      statLoop, qInit, blockVals, qTerms, Accum.feed, Accum.update, Function.update,
      hr1, hr2, hp]
  exact ⟨(claim_C3 2 (fun x => x + 1) [⟨2, fun k i => ((2 * k + i : ℕ) : ℚ)⟩]
        [1/2, 5/2] [[1, 1], [1, 1]] h).1 0 (by omega) 1 (by omega),
    (claim_C3 2 (fun x => x + 1) [⟨2, fun k i => ((2 * k + i : ℕ) : ℚ)⟩]
        [1/2, 5/2] [[1, 1], [1, 1]] h).2.1 0 (by omega) 1 (by omega),
    (claim_C3 2 (fun x => x + 1) [⟨2, fun k i => ((2 * k + i : ℕ) : ℚ)⟩]
        [1/2, 5/2] [[1, 1], [1, 1]] h).2.2 0 (by omega)⟩

end ShogunMMD
